import Mathlib

/-!
Verification of the mastery-tracking / review-candidate-selection core of the
GRE-Insight study tool (src/App.tsx, src/types.ts), as a shallow embedding.

State setters of the source (React `setX` calls) are modelled as explicit
state passing; timestamps and the "current date" are passed as parameters;
the random index used by the candidate selector is passed as a parameter.
-/

namespace GREInsight

/-- Per-word mutable study statistics (types.ts `WordStats`). -/
structure WordStats where
  reviews : Nat
  correctCount : Nat
  incorrectCount : Nat
  masteryScore : Int
  lastReviewed : Nat
deriving DecidableEq

/-- types.ts `GREWordData.greContext`. -/
structure GREContext where
  explanation : String
  sentenceEn : String
  sentenceCn : String
deriving DecidableEq

/-- types.ts `GREWordData.etymology`; the source field `structure` is renamed
`struct` because `structure` is a Lean keyword. -/
structure Etymology where
  origin : String
  struct : String
  logic : String
deriving DecidableEq

/-- types.ts cognate entries `{word, pos, meaning}`. -/
structure Cognate where
  word : String
  pos : String
  meaning : String
deriving DecidableEq

/-- types.ts synonym/antonym entries `{word, meaning}`. -/
structure WordGloss where
  word : String
  meaning : String
deriving DecidableEq

/-- types.ts `GREWordData`.  Optional TS fields become `Option`. -/
structure GREWordData where
  word : String
  phonetic : String
  partOfSpeech : String
  definition : String
  greContext : GREContext
  etymology : Etymology
  mnemonic : String
  cognates : List Cognate
  synonyms : List WordGloss
  antonyms : List WordGloss
  timestamp : Option Nat
  stats : Option WordStats
  wasCorrected : Option Bool
  originalQuery : Option String
deriving DecidableEq

/-- types.ts `Settings.fontSize` values. -/
inductive FontSize
  | small
  | medium
  | large
deriving DecidableEq

/-- types.ts `Settings.quizSource` values. -/
inductive QuizSource
  | ALL
  | FAVORITES
deriving DecidableEq

/-- types.ts `Settings.quizMode` values. -/
inductive QuizMode
  | RANDOM
  | WEAKEST
deriving DecidableEq

/-- types.ts `Settings`. -/
structure Settings where
  darkMode : Bool
  serifFont : Bool
  fontSize : FontSize
  quizSource : QuizSource
  quizMode : QuizMode
  quizQuestionCount : Nat
  learningGoal : Nat
deriving DecidableEq

/-- types.ts `StudyStats`. -/
structure StudyStats where
  streakDays : Nat
  lastStudyDate : String
deriving DecidableEq

/-- types.ts `UserData`: the five-field snapshot.  The TS
`Record<string, GREWordData>` word cache is modelled as an association list
in JS object key order (insertion order for string keys). -/
structure UserData where
  favorites : List GREWordData
  history : List String
  settings : Settings
  wordCache : List (String × GREWordData)
  studyStats : StudyStats
deriving DecidableEq

/-- JS object property read `m[k]` on the association-list model. -/
def cacheGet (m : List (String × α)) (k : String) : Option α :=
  (m.find? (fun p => p.1 == k)).map (·.2)

/-- JS `{...m, [k]: v}` / `Map.set`: if the key is present its value is
replaced in place (position kept), otherwise the pair is appended. -/
def assocSet (m : List (String × α)) (k : String) (v : α) : List (String × α) :=
  if m.any (fun p => p.1 == k) then
    m.map (fun p => if p.1 == k then (k, v) else p)
  else
    m ++ [(k, v)]

/-- The lazy default used by `updateWordStats` when a word has no stats yet
(App.tsx lines 223-229). -/
def defaultStats : WordStats :=
  { reviews := 0, correctCount := 0, incorrectCount := 0, masteryScore := 0, lastReviewed := 0 }

/-- The three mastery-affecting actions of `updateWordStats`. -/
inductive MasteryAction
  | review
  | correct
  | incorrect
deriving DecidableEq

/-- The pure stats transition inside `updateWordStats` (App.tsx lines
223-244): copy the stats (lazily defaulted), stamp `lastReviewed` with the
current time, then apply the per-action increments and the clamped mastery
update, which reads the OLD mastery score. -/
def applyAction (stats0 : Option WordStats) (action : MasteryAction) (now : Nat) : WordStats :=
  let stats := stats0.getD defaultStats
  let newStats := { stats with lastReviewed := now }
  match action with
  | .review =>
      { newStats with
        reviews := newStats.reviews + 1
        masteryScore := min 100 (stats.masteryScore + 5) }
  | .correct =>
      { newStats with
        reviews := newStats.reviews + 1
        correctCount := newStats.correctCount + 1
        masteryScore := min 100 (stats.masteryScore + 15) }
  | .incorrect =>
      { newStats with
        reviews := newStats.reviews + 1
        incorrectCount := newStats.incorrectCount + 1
        masteryScore := max 0 (stats.masteryScore - 10) }

/-- App.tsx `updateWordStats` (lines 218-253): looks the word up in the word
cache; if absent it is a no-op; otherwise the updated word is written back
into the cache and fanned out over every favorites entry with the same word
key. -/
def updateWordStats (cache : List (String × GREWordData)) (favorites : List GREWordData)
    (word : String) (action : MasteryAction) (now : Nat) :
    List (String × GREWordData) × List GREWordData :=
  match cacheGet cache word with
  | none => (cache, favorites)
  | some data =>
      let newStats := applyAction data.stats action now
      let updatedWord := { data with stats := some newStats }
      (assocSet cache word updatedWord,
       favorites.map (fun f => if f.word == word then updatedWord else f))

/-- App.tsx `checkDailyStreak` (lines 87-111).  `today` is
`new Date().toISOString().split('T')[0]` and `yesterdayStr` the same for the
previous calendar day; both are caller-supplied here.  The JS truthiness
test `if (lastStudyDate)` is the non-empty-string test. -/
def checkDailyStreak (currentStats : StudyStats) (today yesterdayStr : String) : StudyStats :=
  if currentStats.lastStudyDate = today then currentStats
  else
    let newStreak :=
      if currentStats.lastStudyDate ≠ "" then
        if currentStats.lastStudyDate = yesterdayStr then currentStats.streakDays + 1
        else 1
      else 1
    { streakDays := newStreak, lastStudyDate := today }

/-- A `GREWordData` with the given word and stats and empty presentation
fields; used to build concrete witness inputs. -/
def mkWord (w : String) (st : Option WordStats) : GREWordData :=
  { word := w, phonetic := "", partOfSpeech := "", definition := ""
    greContext := { explanation := "", sentenceEn := "", sentenceCn := "" }
    etymology := { origin := "", struct := "", logic := "" }
    mnemonic := "", cognates := [], synonyms := [], antonyms := []
    timestamp := none, stats := st, wasCorrected := none, originalQuery := none }

/-- A `find?` on the replace branch of `assocSet` returns the replaced pair. -/
theorem find?_map_replace (m : List (String × α)) (k : String) (v : α)
    (h : m.any (fun p => p.1 == k) = true) :
    (m.map (fun p => if p.1 == k then (k, v) else p)).find? (fun p => p.1 == k) =
      some (k, v) := by
  induction m with
  | nil => simp at h
  | cons p t ih =>
      by_cases hp : p.1 = k
      · have hb : (p.1 == k) = true := beq_iff_eq.mpr hp
        simp only [List.map_cons]
        rw [if_pos hb]
        exact List.find?_cons_of_pos _ (by simp)
      · have hb : (p.1 == k) = false := beq_false_of_ne hp
        have h' : t.any (fun p => p.1 == k) = true := by
          rw [List.any_cons, hb] at h
          simpa using h
        simp only [List.map_cons]
        rw [if_neg (by simp [hb])]
        rw [List.find?_cons_of_neg _ (by simp [hb])]
        exact ih h'

/-- A `find?` after appending a fresh key finds the appended pair. -/
theorem find?_append_fresh (m : List (String × α)) (k : String) (v : α)
    (h : m.any (fun p => p.1 == k) = false) :
    (m ++ [(k, v)]).find? (fun p => p.1 == k) = some (k, v) := by
  induction m with
  | nil =>
      simp only [List.nil_append]
      exact List.find?_cons_of_pos _ (by simp)
  | cons p t ih =>
      rw [List.any_cons] at h
      have hb : (p.1 == k) = false := by
        cases hpb : (p.1 == k) <;> simp [hpb] at h ⊢
      have h' : t.any (fun p => p.1 == k) = false := by
        rw [hb] at h
        simpa using h
      rw [List.cons_append]
      rw [List.find?_cons_of_neg _ (by simp [hb])]
      exact ih h'

/-- Reading back the key just written by `assocSet` yields the new value. -/
theorem cacheGet_assocSet_self (m : List (String × α)) (k : String) (v : α) :
    cacheGet (assocSet m k v) k = some v := by
  unfold assocSet
  by_cases h : m.any (fun p => p.1 == k) = true
  · rw [if_pos h]
    unfold cacheGet
    rw [find?_map_replace m k v h]
    rfl
  · have h' : m.any (fun p => p.1 == k) = false := by
      simpa only [Bool.not_eq_true] using h
    rw [if_neg h]
    unfold cacheGet
    rw [find?_append_fresh m k v h']
    rfl

/-- Claim C1: for every input stats record (an absent record defaulting to
all-zero stats) and every action, `applyAction` increments `reviews` by one;
`review` adds 5 to the mastery score clamped at 100, `correct` additionally
increments `correctCount` and adds 15 clamped at 100, `incorrect`
additionally increments `incorrectCount` and subtracts 10 clamped at 0; and
`lastReviewed` is always set to the current time. -/
theorem C1_mastery_engine_transitions (stats0 : Option WordStats) (now : Nat) :
    (applyAction stats0 .review now).reviews = (stats0.getD defaultStats).reviews + 1 ∧
    (applyAction stats0 .review now).masteryScore =
      min 100 ((stats0.getD defaultStats).masteryScore + 5) ∧
    (applyAction stats0 .review now).correctCount = (stats0.getD defaultStats).correctCount ∧
    (applyAction stats0 .review now).incorrectCount = (stats0.getD defaultStats).incorrectCount ∧
    (applyAction stats0 .correct now).reviews = (stats0.getD defaultStats).reviews + 1 ∧
    (applyAction stats0 .correct now).correctCount =
      (stats0.getD defaultStats).correctCount + 1 ∧
    (applyAction stats0 .correct now).incorrectCount =
      (stats0.getD defaultStats).incorrectCount ∧
    (applyAction stats0 .correct now).masteryScore =
      min 100 ((stats0.getD defaultStats).masteryScore + 15) ∧
    (applyAction stats0 .incorrect now).reviews = (stats0.getD defaultStats).reviews + 1 ∧
    (applyAction stats0 .incorrect now).incorrectCount =
      (stats0.getD defaultStats).incorrectCount + 1 ∧
    (applyAction stats0 .incorrect now).correctCount =
      (stats0.getD defaultStats).correctCount ∧
    (applyAction stats0 .incorrect now).masteryScore =
      max 0 ((stats0.getD defaultStats).masteryScore - 10) ∧
    (∀ a : MasteryAction, (applyAction stats0 a now).lastReviewed = now) := by
  refine ⟨rfl, rfl, rfl, rfl, rfl, rfl, rfl, rfl, rfl, rfl, rfl, rfl, ?_⟩
  rintro (_ | _ | _) <;> rfl

/-- Claim C8: starting from any stats record whose mastery score respects
the `[0,100]` invariant (the absent-stats default does), every action keeps
the mastery score within `[0,100]`; clamping holds at both ends: `correct`
on a score of 95 yields 100, and `incorrect` on a score below 10 yields 0. -/
theorem C8_masteryScore_clamped (stats0 : Option WordStats) (now : Nat)
    (h0 : 0 ≤ (stats0.getD defaultStats).masteryScore)
    (h100 : (stats0.getD defaultStats).masteryScore ≤ 100) :
    (∀ a : MasteryAction,
      0 ≤ (applyAction stats0 a now).masteryScore ∧
        (applyAction stats0 a now).masteryScore ≤ 100) ∧
    ((stats0.getD defaultStats).masteryScore = 95 →
      (applyAction stats0 .correct now).masteryScore = 100) ∧
    ((stats0.getD defaultStats).masteryScore < 10 →
      (applyAction stats0 .incorrect now).masteryScore = 0) := by
  refine ⟨?_, ?_, ?_⟩
  · rintro (_ | _ | _) <;> constructor <;> simp only [applyAction] <;> omega
  · intro h95
    simp only [applyAction]
    omega
  · intro hlt
    simp only [applyAction]
    omega

/-- A stats record used as concrete witness input. -/
def s95 : WordStats :=
  { reviews := 3, correctCount := 1, incorrectCount := 0, masteryScore := 95, lastReviewed := 4 }

/-- Witness for C8 at a concrete stats record with mastery 95. -/
theorem C8_masteryScore_clamped_witness :
    ((applyAction (some s95) .correct 7).masteryScore = 100) ∧
    (0 ≤ (applyAction (some s95) .review 7).masteryScore ∧
      (applyAction (some s95) .review 7).masteryScore ≤ 100) :=
  ⟨(C8_masteryScore_clamped (some s95) 7 (by decide) (by decide)).2.1 (by decide),
   (C8_masteryScore_clamped (some s95) 7 (by decide) (by decide)).1 .review⟩

/-- Claim C10: a mastery update for a word key that is absent from the word
cache is a complete no-op: the cache is returned unchanged and the favorites
list is untouched. -/
theorem C10_missing_word_noop (cache : List (String × GREWordData))
    (favorites : List GREWordData) (word : String) (action : MasteryAction) (now : Nat)
    (h : cacheGet cache word = none) :
    updateWordStats cache favorites word action now = (cache, favorites) := by
  simp [updateWordStats, h]

/-- Witness for C10: the empty cache with a favorites-only word; the update
leaves both collections untouched. -/
theorem C10_missing_word_noop_witness :
    updateWordStats [] [mkWord "abate" none] "abate" .review 5 =
      ([], [mkWord "abate" none]) :=
  C10_missing_word_noop [] [mkWord "abate" none] "abate" .review 5 rfl

/-- Claim C5: for real dates (`today` and its predecessor `yesterdayStr` are
non-empty and distinct), the streak check is the identity when
`lastStudyDate` is today; it increments the streak and stamps today when
`lastStudyDate` is yesterday; and in every other case (empty date or any
other date, covering gaps of two or more days and future dates) it resets
the streak to 1 and stamps today. -/
theorem C5_streak_transitions (stats : StudyStats) (today yesterdayStr : String)
    (hyne : yesterdayStr ≠ "") (hyt : yesterdayStr ≠ today) :
    (stats.lastStudyDate = today → checkDailyStreak stats today yesterdayStr = stats) ∧
    (stats.lastStudyDate = yesterdayStr →
      checkDailyStreak stats today yesterdayStr =
        { streakDays := stats.streakDays + 1, lastStudyDate := today }) ∧
    (stats.lastStudyDate ≠ today → stats.lastStudyDate ≠ yesterdayStr →
      checkDailyStreak stats today yesterdayStr =
        { streakDays := 1, lastStudyDate := today }) := by
  refine ⟨?_, ?_, ?_⟩
  · intro h
    simp [checkDailyStreak, h]
  · intro h
    unfold checkDailyStreak
    rw [if_neg (by rw [h]; exact hyt)]
    simp [h, hyne]
  · intro hnt hny
    unfold checkDailyStreak
    rw [if_neg hnt]
    by_cases hne : stats.lastStudyDate = ""
    · simp [hne]
    · simp [hne, hny]

/-- Witness for C5: `checkStreak({streakDays:3, lastStudyDate:"2024-01-01"},
"2024-01-02")` yields `{streakDays:4, lastStudyDate:"2024-01-02"}`. -/
theorem C5_streak_transitions_witness :
    checkDailyStreak { streakDays := 3, lastStudyDate := "2024-01-01" }
        "2024-01-02" "2024-01-01" =
      { streakDays := 4, lastStudyDate := "2024-01-02" } :=
  (C5_streak_transitions { streakDays := 3, lastStudyDate := "2024-01-01" }
    "2024-01-02" "2024-01-01" (by decide) (by decide)).2.1 rfl

/-- Claim C2: after any mastery action on a word present in the word cache,
the updated cache entry and every favorites entry sharing the same word key
carry the very same stats record, so the store copy and the favorites copy
report identical masteryScore, reviews and lastReviewed — the two copies
never diverge under a mastery update. -/
theorem C2_dual_write_invariant (cache : List (String × GREWordData))
    (favorites : List GREWordData) (word : String) (action : MasteryAction) (now : Nat)
    (data : GREWordData) (hmem : cacheGet cache word = some data) :
    ∃ w', cacheGet (updateWordStats cache favorites word action now).1 word = some w' ∧
      ∀ f ∈ (updateWordStats cache favorites word action now).2, f.word = word →
        f.stats = w'.stats ∧
        (f.stats.getD defaultStats).masteryScore = (w'.stats.getD defaultStats).masteryScore ∧
        (f.stats.getD defaultStats).reviews = (w'.stats.getD defaultStats).reviews ∧
        (f.stats.getD defaultStats).lastReviewed = (w'.stats.getD defaultStats).lastReviewed := by
  refine ⟨{ data with stats := some (applyAction data.stats action now) }, ?_, ?_⟩
  · simp only [updateWordStats, hmem]
    exact cacheGet_assocSet_self _ _ _
  · simp only [updateWordStats, hmem]
    intro f hf hfw
    rcases List.mem_map.mp hf with ⟨g, hg, hgf⟩
    by_cases hgw : g.word = word
    · have hfu : f = { data with stats := some (applyAction data.stats action now) } := by
        rw [← hgf, if_pos (beq_iff_eq.mpr hgw)]
      rw [hfu]
      exact ⟨rfl, rfl, rfl, rfl⟩
    · exfalso
      have hfg : f = g := by
        rw [← hgf, if_neg (by simp [beq_false_of_ne hgw])]
      rw [hfg] at hfw
      exact hgw hfw

/-- A concrete never-reviewed word used by witnesses. -/
def wAbate : GREWordData := mkWord "abate" none

/-- Witness for C2: the word "abate" present in both the cache and the
favorites list, updated by a flashcard review at time 5. -/
theorem C2_dual_write_invariant_witness :
    ∃ w', cacheGet (updateWordStats [("abate", wAbate)] [wAbate] "abate" .review 5).1
        "abate" = some w' ∧
      ∀ f ∈ (updateWordStats [("abate", wAbate)] [wAbate] "abate" .review 5).2,
        f.word = "abate" →
        f.stats = w'.stats ∧
        (f.stats.getD defaultStats).masteryScore = (w'.stats.getD defaultStats).masteryScore ∧
        (f.stats.getD defaultStats).reviews = (w'.stats.getD defaultStats).reviews ∧
        (f.stats.getD defaultStats).lastReviewed = (w'.stats.getD defaultStats).lastReviewed :=
  C2_dual_write_invariant [("abate", wAbate)] [wAbate] "abate" .review 5 wAbate rfl

/-- The mastery score the selector reads: `a.stats?.masteryScore || 0`. -/
def masteryOf (w : GREWordData) : Int :=
  match w.stats with
  | some s => s.masteryScore
  | none => 0

/-- The review time the selector reads: `a.stats?.lastReviewed || 0`. -/
def lastReviewedOf (w : GREWordData) : Nat :=
  match w.stats with
  | some s => s.lastReviewed
  | none => 0

/-- The sort comparator of `getReviewCandidate` (App.tsx lines 261-268) as a
Boolean less-or-equal: ascending mastery score, ties broken by ascending
last-reviewed time. -/
def candLE (a b : GREWordData) : Bool :=
  decide (masteryOf a < masteryOf b ∨
    (masteryOf a = masteryOf b ∧ lastReviewedOf a ≤ lastReviewedOf b))

/-- The candidate pool of `getReviewCandidate` (App.tsx line 257): favorites
when non-empty, otherwise all values of the word cache. -/
def reviewPool (favorites : List GREWordData)
    (wordCache : List (String × GREWordData)) : List GREWordData :=
  if favorites.length > 0 then favorites else wordCache.map (·.2)

/-- App.tsx `getReviewCandidate` (lines 255-277): sort the pool by the
comparator, keep the first `min(12, poolSize)` entries and pick one of them
at random.  The random draw `Math.floor(Math.random() * len)`, always an
index below `len`, is abstracted by the parameter `r` reduced mod `len`. -/
def getReviewCandidate (favorites : List GREWordData)
    (wordCache : List (String × GREWordData)) (r : Nat) : Option GREWordData :=
  let pool := reviewPool favorites wordCache
  if pool.length = 0 then none
  else
    let sorted := pool.mergeSort candLE
    let candidatePoolSize := min 12 sorted.length
    let topCandidates := sorted.take candidatePoolSize
    topCandidates[r % topCandidates.length]?

/-- The selector's comparator is transitive. -/
theorem candLE_trans : ∀ a b c : GREWordData, candLE a b → candLE b c → candLE a c := by
  intro a b c hab hbc
  simp only [candLE, decide_eq_true_eq] at hab hbc ⊢
  rcases hab with h1 | ⟨h1, h1'⟩ <;> rcases hbc with h2 | ⟨h2, h2'⟩
  · exact Or.inl (lt_trans h1 h2)
  · exact Or.inl (by omega)
  · exact Or.inl (by omega)
  · exact Or.inr ⟨by omega, le_trans h1' h2'⟩

/-- The selector's comparator is total. -/
theorem candLE_total : ∀ a b : GREWordData, candLE a b || candLE b a := by
  intro a b
  simp only [candLE, Bool.or_eq_true, decide_eq_true_eq]
  omega

/-- Claim C4: the candidate pool is favorites if non-empty else the cache
values; an empty pool yields none; otherwise, for every random draw, the
selector returns an element of the first `min(12, poolSize)` entries of the
pool sorted ascending by mastery score with ties broken by ascending
last-reviewed time (the sorted list being a sorted permutation of the
pool) — never a word outside that top-12-weakest window. -/
theorem C4_review_candidate_window (favorites : List GREWordData)
    (wordCache : List (String × GREWordData)) (r : Nat) :
    (reviewPool favorites wordCache = [] →
      getReviewCandidate favorites wordCache r = none) ∧
    ((reviewPool favorites wordCache).mergeSort candLE).Perm
      (reviewPool favorites wordCache) ∧
    ((reviewPool favorites wordCache).mergeSort candLE).Pairwise
      (fun a b => candLE a b) ∧
    (reviewPool favorites wordCache ≠ [] →
      ∃ w, getReviewCandidate favorites wordCache r = some w ∧
        w ∈ ((reviewPool favorites wordCache).mergeSort candLE).take
            (min 12 (reviewPool favorites wordCache).length)) := by
  refine ⟨?_, List.mergeSort_perm _ _,
    List.sorted_mergeSort candLE_trans candLE_total _, ?_⟩
  · intro h
    simp [getReviewCandidate, h]
  · intro h
    have hlen : 0 < (reviewPool favorites wordCache).length := List.length_pos.mpr h
    have hslen : ((reviewPool favorites wordCache).mergeSort candLE).length =
        (reviewPool favorites wordCache).length := by simp
    simp only [getReviewCandidate]
    rw [if_neg (by omega)]
    have htl : 0 < (((reviewPool favorites wordCache).mergeSort candLE).take
        (min 12 ((reviewPool favorites wordCache).mergeSort candLE).length)).length := by
      simp only [List.length_take, hslen]
      omega
    have hr := Nat.mod_lt r htl
    rcases hw : (((reviewPool favorites wordCache).mergeSort candLE).take
        (min 12 ((reviewPool favorites wordCache).mergeSort candLE).length))[r %
        (((reviewPool favorites wordCache).mergeSort candLE).take
          (min 12 ((reviewPool favorites wordCache).mergeSort candLE).length)).length]? with
      _ | w
    · rw [List.getElem?_eq_none_iff] at hw
      omega
    · refine ⟨w, rfl, ?_⟩
      have hmem := List.getElem?_mem hw
      rwa [hslen] at hmem

/-- Witness for C4 on the one-word pool `[wAbate]` with random draw 0. -/
theorem C4_review_candidate_window_witness :
    ∃ w, getReviewCandidate [wAbate] [] 0 = some w ∧
      w ∈ ((reviewPool [wAbate] []).mergeSort candLE).take
          (min 12 (reviewPool [wAbate] []).length) :=
  (C4_review_candidate_window [wAbate] [] 0).2.2.2 (by simp [reviewPool])

/-- JS `new Map(list.map(item => [item.word, item]))`: fold the word-keyed
entries into an insertion-ordered map; a repeated key overwrites the value
in place. -/
def buildWordMap (l : List GREWordData) : List (String × GREWordData) :=
  l.foldl (fun m w => assocSet m w.word w) []

/-- The favorites merge of `performCloudSync` on login (App.tsx lines
286-289): concatenate local then remote favorites, key the concatenation by
word, and take the map's values. -/
def mergeFavorites (localFavs cloudFavs : List GREWordData) : List GREWordData :=
  (buildWordMap (localFavs ++ cloudFavs)).map (·.2)

/-- The last occurrence of word key `k` in `l`. -/
def lastOcc (l : List GREWordData) (k : String) : Option GREWordData :=
  l.reverse.find? (fun w => w.word == k)

/-- The function `find?` only looks at predicate values on members. -/
theorem find?_congr_mem {p q : α → Bool} (l : List α) (h : ∀ x ∈ l, p x = q x) :
    l.find? p = l.find? q := by
  induction l with
  | nil => rfl
  | cons a t ih =>
      have ha := h a (List.mem_cons_self a t)
      cases hpa : p a
      · rw [List.find?_cons_of_neg _ (by simp [hpa]),
          List.find?_cons_of_neg _ (by simp [← ha, hpa])]
        exact ih (fun x hx => h x (List.mem_cons_of_mem a hx))
      · rw [List.find?_cons_of_pos _ (by simp [hpa]),
          List.find?_cons_of_pos _ (by simp [← ha, hpa])]

/-- Replacing the value at key `k` does not change lookups at other keys. -/
theorem find?_map_replace_ne (m : List (String × α)) (k k' : String) (v : α)
    (h : k' ≠ k) :
    (m.map (fun p => if p.1 == k then (k, v) else p)).find? (fun p => p.1 == k') =
      m.find? (fun p => p.1 == k') := by
  induction m with
  | nil => rfl
  | cons p t ih =>
      simp only [List.map_cons]
      by_cases hpk : p.1 = k
      · rw [if_pos (beq_iff_eq.mpr hpk)]
        rw [List.find?_cons_of_neg _ (by simp [beq_false_of_ne (fun he : k = k' => h he.symm)])]
        rw [List.find?_cons_of_neg _
          (by simp [beq_false_of_ne (fun he : p.1 = k' => h (he.symm.trans hpk))])]
        exact ih
      · rw [if_neg (by simp [beq_false_of_ne hpk])]
        by_cases hpk' : p.1 = k'
        · rw [List.find?_cons_of_pos _ (by simp [hpk']),
            List.find?_cons_of_pos _ (by simp [hpk'])]
        · rw [List.find?_cons_of_neg _ (by simp [beq_false_of_ne hpk']),
            List.find?_cons_of_neg _ (by simp [beq_false_of_ne hpk'])]
          exact ih

/-- An `assocSet` at another key leaves lookups unchanged. -/
theorem cacheGet_assocSet_ne (m : List (String × α)) (k k' : String) (v : α)
    (h : k' ≠ k) : cacheGet (assocSet m k v) k' = cacheGet m k' := by
  unfold assocSet
  by_cases hany : m.any (fun p => p.1 == k) = true
  · rw [if_pos hany]
    unfold cacheGet
    rw [find?_map_replace_ne m k k' v h]
  · rw [if_neg hany]
    unfold cacheGet
    rw [List.find?_append]
    have hnone : ([(k, v)].find? (fun p => p.1 == k')) = none := by
      simp [beq_false_of_ne (fun he : k = k' => h he.symm)]
    rw [hnone, Option.or_none]

/-- The keys of `assocSet`: unchanged on replace, the new key appended on
insert. -/
theorem assocSet_keys (m : List (String × α)) (k : String) (v : α) :
    (assocSet m k v).map Prod.fst =
      if m.any (fun p => p.1 == k) then m.map Prod.fst
      else m.map Prod.fst ++ [k] := by
  unfold assocSet
  split
  · rw [List.map_map]
    apply List.map_congr_left
    intro p hp
    by_cases hpk : p.1 = k
    · simp [hpk]
    · simp [hpk]
  · simp

/-- An `assocSet` preserves key uniqueness. -/
theorem assocSet_keys_nodup (m : List (String × α)) (k : String) (v : α)
    (h : (m.map Prod.fst).Nodup) : ((assocSet m k v).map Prod.fst).Nodup := by
  rw [assocSet_keys]
  split
  · exact h
  · rename_i hany
    have hk : k ∉ m.map Prod.fst := by
      intro hmem
      rcases List.mem_map.mp hmem with ⟨p, hp, hpk⟩
      exact hany (List.any_eq_true.mpr ⟨p, hp, beq_iff_eq.mpr hpk⟩)
    simp [List.nodup_append, h, hk]

/-- An `assocSet` keyed by the inserted value's own word keeps every entry's
key equal to its value's word. -/
theorem assocSet_entries_consistent (m : List (String × GREWordData)) (v : GREWordData)
    (hm : ∀ p ∈ m, p.2.word = p.1) :
    ∀ p ∈ assocSet m v.word v, p.2.word = p.1 := by
  intro p hp
  unfold assocSet at hp
  split at hp
  · rcases List.mem_map.mp hp with ⟨q, hq, hqp⟩
    by_cases hqk : q.1 = v.word
    · rw [← hqp, if_pos (beq_iff_eq.mpr hqk)]
    · rw [← hqp, if_neg (by simp [beq_false_of_ne hqk])]
      exact hm q hq
  · rcases List.mem_append.mp hp with hq | hq
    · exact hm p hq
    · have : p = (v.word, v) := by simpa using hq
      rw [this]

/-- The map `buildWordMap` processes a final element as one `assocSet`. -/
theorem buildWordMap_append_singleton (l : List GREWordData) (w : GREWordData) :
    buildWordMap (l ++ [w]) = assocSet (buildWordMap l) w.word w := by
  unfold buildWordMap
  rw [List.foldl_append]
  rfl

/-- Every `buildWordMap` entry is keyed by its value's word. -/
theorem buildWordMap_consistent (l : List GREWordData) :
    ∀ p ∈ buildWordMap l, p.2.word = p.1 := by
  induction l using List.reverseRecOn with
  | nil => intro p hp; simp [buildWordMap] at hp
  | append_singleton l w ih =>
      rw [buildWordMap_append_singleton]
      exact assocSet_entries_consistent _ w ih

/-- The map `buildWordMap` never has two entries with the same key. -/
theorem buildWordMap_keys_nodup (l : List GREWordData) :
    ((buildWordMap l).map Prod.fst).Nodup := by
  induction l using List.reverseRecOn with
  | nil => simp [buildWordMap]
  | append_singleton l w ih =>
      rw [buildWordMap_append_singleton]
      exact assocSet_keys_nodup _ _ _ ih

/-- A `buildWordMap` lookup returns the last occurrence of the key. -/
theorem cacheGet_buildWordMap (l : List GREWordData) (k : String) :
    cacheGet (buildWordMap l) k = lastOcc l k := by
  induction l using List.reverseRecOn with
  | nil => rfl
  | append_singleton l w ih =>
      rw [buildWordMap_append_singleton]
      unfold lastOcc
      rw [List.reverse_append]
      simp only [List.reverse_singleton, List.singleton_append]
      by_cases hwk : w.word = k
      · rw [List.find?_cons_of_pos _ (by simp [hwk]), ← hwk, cacheGet_assocSet_self]
      · rw [List.find?_cons_of_neg _ (by simp [beq_false_of_ne hwk]),
          cacheGet_assocSet_ne _ _ _ _ (fun he => hwk he.symm)]
        exact ih

/-- The search `lastOcc` finds something exactly when the key occurs. -/
theorem lastOcc_isSome (l : List GREWordData) (k : String) :
    (lastOcc l k).isSome ↔ ∃ w ∈ l, w.word = k := by
  unfold lastOcc
  rw [List.find?_isSome]
  constructor
  · rintro ⟨w, hw, hwk⟩
    exact ⟨w, List.mem_reverse.mp hw, beq_iff_eq.mp hwk⟩
  · rintro ⟨w, hw, hwk⟩
    exact ⟨w, List.mem_reverse.mpr hw, beq_iff_eq.mpr hwk⟩

/-- Claim C3: the login merge of favorites deduplicates the concatenation
local-then-remote by word key: no two merged entries share a word key; the
entry found for a key is the last occurrence of that key in the
concatenation — in particular the remote copy whenever the key occurs
remotely (remote wins) — and a key has a merged entry exactly when it
occurs in either input. -/
theorem C3_login_merge_favorites (localFavs cloudFavs : List GREWordData) :
    ((mergeFavorites localFavs cloudFavs).map (·.word)).Nodup ∧
    (∀ k, (mergeFavorites localFavs cloudFavs).find? (fun w => w.word == k) =
      lastOcc (localFavs ++ cloudFavs) k) ∧
    (∀ k w, lastOcc cloudFavs k = some w →
      (mergeFavorites localFavs cloudFavs).find? (fun w => w.word == k) = some w) ∧
    (∀ k, (∃ w ∈ localFavs ++ cloudFavs, w.word = k) ↔
      ∃ w ∈ mergeFavorites localFavs cloudFavs, w.word = k) := by
  have hfind : ∀ k, (mergeFavorites localFavs cloudFavs).find? (fun w => w.word == k) =
      lastOcc (localFavs ++ cloudFavs) k := by
    intro k
    unfold mergeFavorites
    rw [List.find?_map]
    have hcongr : (buildWordMap (localFavs ++ cloudFavs)).find?
        ((fun w => w.word == k) ∘ (·.2)) =
        (buildWordMap (localFavs ++ cloudFavs)).find? (fun p => p.1 == k) := by
      apply find?_congr_mem
      intro p hp
      simp [Function.comp, buildWordMap_consistent _ p hp]
    rw [hcongr]
    exact cacheGet_buildWordMap _ k
  refine ⟨?_, hfind, ?_, ?_⟩
  · have hmm : (mergeFavorites localFavs cloudFavs).map (·.word) =
        (buildWordMap (localFavs ++ cloudFavs)).map Prod.fst := by
      unfold mergeFavorites
      rw [List.map_map]
      exact List.map_congr_left (fun p hp => buildWordMap_consistent _ p hp)
    rw [hmm]
    exact buildWordMap_keys_nodup _
  · intro k w hw
    rw [hfind k]
    unfold lastOcc at hw ⊢
    rw [List.reverse_append, List.find?_append, hw]
    rfl
  · intro k
    constructor
    · intro hex
      have hsome : (lastOcc (localFavs ++ cloudFavs) k).isSome :=
        (lastOcc_isSome _ k).mpr hex
      rcases Option.isSome_iff_exists.mp hsome with ⟨w, hw⟩
      rw [← hfind k] at hw
      have hwk := List.find?_some hw
      exact ⟨w, List.mem_of_find?_eq_some hw, beq_iff_eq.mp hwk⟩
    · rintro ⟨w, hw, hwk⟩
      have hsome : ((mergeFavorites localFavs cloudFavs).find?
          (fun w => w.word == k)).isSome :=
        List.find?_isSome.mpr ⟨w, hw, beq_iff_eq.mpr hwk⟩
      rw [hfind k] at hsome
      exact (lastOcc_isSome _ k).mp hsome

/-- Concrete favorites entry: "abate" at mastery 20 (local copy). -/
def a20 : GREWordData := mkWord "abate"
  (some { reviews := 1, correctCount := 0, incorrectCount := 0, masteryScore := 20, lastReviewed := 1 })

/-- Concrete favorites entry: "abate" at mastery 80 (remote copy). -/
def a80 : GREWordData := mkWord "abate"
  (some { reviews := 9, correctCount := 5, incorrectCount := 1, masteryScore := 80, lastReviewed := 2 })

/-- Concrete favorites entry: "zealous" at mastery 10 (remote only). -/
def z10 : GREWordData := mkWord "zealous"
  (some { reviews := 1, correctCount := 0, incorrectCount := 1, masteryScore := 10, lastReviewed := 3 })

/-- Witness for C3 at the spec's test vector: merging local `[abate@20]`
with remote `[abate@80, zealous@10]` finds the remote copy for "abate". -/
theorem C3_login_merge_favorites_witness :
    (mergeFavorites [a20] [a80, z10]).find? (fun w => w.word == "abate") = some a80 :=
  (C3_login_merge_favorites [a20] [a80, z10]).2.2.1 "abate" a80 rfl

/-- The view modes of the app (types.ts `ViewMode`). -/
inductive ViewMode
  | HOME
  | SEARCH
  | WORD_BOOK
  | FLASHCARDS
  | QUIZ
  | ANALYZER
deriving DecidableEq

/-- The slice of the App component's state read and written by the search
and sync handlers. -/
structure AppState where
  query : String
  loading : Bool
  currentWord : Option GREWordData
  previousWord : Option GREWordData
  error : Option String
  reviewCandidate : Option GREWordData
  history : List String
  favorites : List GREWordData
  wordCache : List (String × GREWordData)
  studyStats : StudyStats
  settings : Settings
  viewMode : ViewMode
  showHistory : Bool
deriving DecidableEq

/-- JS `String.prototype.toLowerCase`, modelled character-wise. -/
def strToLower (s : String) : String := ⟨s.data.map Char.toLower⟩

/-- JS `String.prototype.trim`: strip leading and trailing whitespace. -/
def strTrim (s : String) : String :=
  ⟨((s.data.dropWhile Char.isWhitespace).reverse.dropWhile Char.isWhitespace).reverse⟩

/-- The LOGIN / DATA_UPDATE branch of the `onSyncEvent` listener (App.tsx
lines 179-199) after the remote fetch resolved: `cloudData = none` models a
null fetch result (no state change); otherwise the five set calls are
applied in source order — favorites, history, wordCache, settings, then
studyStats followed by the `checkDailyStreak` call on the remote stats.
`today`/`yesterdayStr` feed the streak check as in `checkDailyStreak`. -/
def handleSyncUpdate (s : AppState) (cloudData : Option UserData)
    (today yesterdayStr : String) : AppState :=
  match cloudData with
  | none => s
  | some cd =>
      let s1 := { s with favorites := cd.favorites }
      let s2 := { s1 with history := cd.history }
      let s3 := { s2 with wordCache := cd.wordCache }
      let s4 := { s3 with settings := cd.settings }
      let s5 := { s4 with studyStats := cd.studyStats }
      { s5 with studyStats := checkDailyStreak s5.studyStats today yesterdayStr }

/-- Claim C6: every post-login synchronization event (LOGIN or DATA_UPDATE
broadcast) whose remote fetch returns a snapshot performs a full replace:
favorites, history, word cache and settings become exactly the remote
snapshot's values whatever the prior local state was, and studyStats
becomes the remote value passed through the streak check. -/
theorem C6_sync_event_full_replace (s : AppState) (cd : UserData)
    (today yesterdayStr : String) :
    (handleSyncUpdate s (some cd) today yesterdayStr).favorites = cd.favorites ∧
    (handleSyncUpdate s (some cd) today yesterdayStr).history = cd.history ∧
    (handleSyncUpdate s (some cd) today yesterdayStr).wordCache = cd.wordCache ∧
    (handleSyncUpdate s (some cd) today yesterdayStr).settings = cd.settings ∧
    (handleSyncUpdate s (some cd) today yesterdayStr).studyStats =
      checkDailyStreak cd.studyStats today yesterdayStr :=
  ⟨rfl, rfl, rfl, rfl, rfl⟩

/-- App.tsx `handleSearch` (lines 314-364) as a state transition.  The
term's fetch outcome is `fetchResult` (`none` = the awaited
`fetchWordData` threw); `r` abstracts the selector's random draw.  A JS
subtlety is modelled faithfully: the `catch` block's `setCurrentWord(previousWord)`
reads `previousWord` from the handler's closure, i.e. the value `s.previousWord`
held when the handler was created — NOT the value stored by the earlier
`setPreviousWord(currentWord)` call in the same run. -/
def handleSearch (s : AppState) (term : String) (fetchResult : Option GREWordData)
    (r : Nat) : AppState :=
  let cleanTerm := strTrim term
  if cleanTerm = "" then s
  else
    let s0 := { s with showHistory := false }
    let lowerTerm := strToLower cleanTerm
    match s.wordCache.find? (fun p => strToLower p.1 == lowerTerm) with
    | some kv =>
        let cachedData := kv.2
        if (match s.currentWord with
            | some w => strToLower w.word == lowerTerm
            | none => false) then s0
        else
          { s0 with
            previousWord := none
            currentWord := some cachedData
            query := ""
            viewMode := .SEARCH
            history := (cachedData.word ::
              s.history.filter (fun w => w != cachedData.word)).take 20 }
    | none =>
        let s1 := { s0 with
          reviewCandidate := getReviewCandidate s.favorites s.wordCache r
          loading := true
          error := none
          previousWord := s.currentWord
          currentWord := none
          viewMode := .SEARCH }
        match fetchResult with
        | some data =>
            { s1 with
              currentWord := some data
              wordCache := assocSet s.wordCache data.word data
              history := (data.word :: s.history.filter (fun w => w != data.word)).take 20
              previousWord := none
              query := ""
              loading := false
              reviewCandidate := none }
        | none =>
            { s1 with
              error := some "Could not find word. Please try again."
              currentWord := s.previousWord
              previousWord := none
              loading := false
              reviewCandidate := none }

/-- The quiz defaults of the App component's initial settings state. -/
def initialSettings : Settings :=
  { darkMode := false, serifFont := true, fontSize := .medium
    quizSource := .ALL, quizMode := .RANDOM, quizQuestionCount := 5, learningGoal := 500 }

/-- A steady state displaying "abate" (no search in flight, so
`previousWord` is null), with "abate" cached. -/
def displayingAbate : AppState :=
  { query := "", loading := false, currentWord := some wAbate, previousWord := none
    error := none, reviewCandidate := none, history := ["abate"], favorites := []
    wordCache := [("abate", wAbate)], studyStats := { streakDays := 1, lastStudyDate := "2024-01-01" }
    settings := initialSettings, viewMode := .SEARCH, showHistory := false }

/-- Claim C7 evaluated at the failing input: with "abate" displayed and no
search in flight, a failed lookup of the uncached term "ineffable" leaves
the retry message and leaves cache, favorites and history untouched, but
sets the displayed word to the stale closure value `none` instead of
reverting to "abate" — the word displayed immediately before the search. -/
theorem C7_lookup_failure_divergence :
    (handleSearch displayingAbate "ineffable" none 0).currentWord = none ∧
    displayingAbate.currentWord = some wAbate ∧
    (handleSearch displayingAbate "ineffable" none 0).currentWord ≠
      displayingAbate.currentWord ∧
    (handleSearch displayingAbate "ineffable" none 0).error =
      some "Could not find word. Please try again." ∧
    (handleSearch displayingAbate "ineffable" none 0).wordCache =
      displayingAbate.wordCache ∧
    (handleSearch displayingAbate "ineffable" none 0).favorites =
      displayingAbate.favorites ∧
    (handleSearch displayingAbate "ineffable" none 0).history =
      displayingAbate.history := by
  refine ⟨rfl, rfl, ?_, rfl, rfl, rfl, rfl⟩
  decide

/-- A JSON value tree.  `JSON.stringify` / `JSON.parse` round-trip such
trees exactly (for the string/number/boolean/array/object data exported
here), so the backup file format is modelled at the tree level; object
fields keep insertion order, and TS fields holding `undefined` are omitted
by `JSON.stringify`. -/
inductive Json where
  | str : String → Json
  | num : Int → Json
  | bool : Bool → Json
  | null : Json
  | arr : List Json → Json
  | obj : List (String × Json) → Json

/-- JS property read `parsed[k]` on a parsed JSON object. -/
def jGet (j : Json) (k : String) : Option Json :=
  match j with
  | .obj fields => (fields.find? (fun p => p.1 == k)).map (·.2)
  | _ => none

/-- Expect a JSON string. -/
def jStr? : Json → Option String
  | .str s => some s
  | _ => none

/-- Expect a JSON number holding a non-negative integer. -/
def jNat? : Json → Option Nat
  | .num n => if 0 ≤ n then some n.toNat else none
  | _ => none

/-- Expect a JSON number. -/
def jInt? : Json → Option Int
  | .num n => some n
  | _ => none

/-- Expect a JSON boolean. -/
def jBool? : Json → Option Bool
  | .bool b => some b
  | _ => none

/-- Expect a JSON array. -/
def jArr? : Json → Option (List Json)
  | .arr l => some l
  | _ => none

/-- Serialize a `WordStats`. -/
def encStats (s : WordStats) : Json :=
  .obj [("reviews", .num s.reviews), ("correctCount", .num s.correctCount),
        ("incorrectCount", .num s.incorrectCount), ("masteryScore", .num s.masteryScore),
        ("lastReviewed", .num s.lastReviewed)]

/-- Parse a `WordStats`. -/
def decStats (j : Json) : Option WordStats := do
  let reviews ← (jGet j "reviews").bind jNat?
  let correctCount ← (jGet j "correctCount").bind jNat?
  let incorrectCount ← (jGet j "incorrectCount").bind jNat?
  let masteryScore ← (jGet j "masteryScore").bind jInt?
  let lastReviewed ← (jGet j "lastReviewed").bind jNat?
  pure { reviews := reviews, correctCount := correctCount, incorrectCount := incorrectCount
         masteryScore := masteryScore, lastReviewed := lastReviewed }

/-- Serialize a cognate entry. -/
def encCognate (c : Cognate) : Json :=
  .obj [("word", .str c.word), ("pos", .str c.pos), ("meaning", .str c.meaning)]

/-- Parse a cognate entry. -/
def decCognate (j : Json) : Option Cognate := do
  let word ← (jGet j "word").bind jStr?
  let pos ← (jGet j "pos").bind jStr?
  let meaning ← (jGet j "meaning").bind jStr?
  pure { word := word, pos := pos, meaning := meaning }

/-- Serialize a synonym/antonym entry. -/
def encGloss (g : WordGloss) : Json :=
  .obj [("word", .str g.word), ("meaning", .str g.meaning)]

/-- Parse a synonym/antonym entry. -/
def decGloss (j : Json) : Option WordGloss := do
  let word ← (jGet j "word").bind jStr?
  let meaning ← (jGet j "meaning").bind jStr?
  pure { word := word, meaning := meaning }

/-- Serialize a `GREWordData`; the optional TS fields are omitted when
absent, exactly as `JSON.stringify` omits `undefined` properties. -/
def encWord (w : GREWordData) : Json :=
  .obj ([("word", .str w.word), ("phonetic", .str w.phonetic),
         ("partOfSpeech", .str w.partOfSpeech), ("definition", .str w.definition),
         ("greContext", .obj [("explanation", .str w.greContext.explanation),
                              ("sentenceEn", .str w.greContext.sentenceEn),
                              ("sentenceCn", .str w.greContext.sentenceCn)]),
         ("etymology", .obj [("origin", .str w.etymology.origin),
                             ("structure", .str w.etymology.struct),
                             ("logic", .str w.etymology.logic)]),
         ("mnemonic", .str w.mnemonic),
         ("cognates", .arr (w.cognates.map encCognate)),
         ("synonyms", .arr (w.synonyms.map encGloss)),
         ("antonyms", .arr (w.antonyms.map encGloss))]
    ++ (match w.timestamp with
        | some t => [("timestamp", Json.num t)]
        | none => [])
    ++ (match w.stats with
        | some st => [("stats", encStats st)]
        | none => [])
    ++ (match w.wasCorrected with
        | some b => [("wasCorrected", Json.bool b)]
        | none => [])
    ++ (match w.originalQuery with
        | some q => [("originalQuery", Json.str q)]
        | none => []))

/-- Parse a `greContext` object. -/
def decGREContext (j : Json) : Option GREContext := do
  let explanation ← (jGet j "explanation").bind jStr?
  let sentenceEn ← (jGet j "sentenceEn").bind jStr?
  let sentenceCn ← (jGet j "sentenceCn").bind jStr?
  pure { explanation := explanation, sentenceEn := sentenceEn, sentenceCn := sentenceCn }

/-- Parse an `etymology` object. -/
def decEtymology (j : Json) : Option Etymology := do
  let origin ← (jGet j "origin").bind jStr?
  let struct ← (jGet j "structure").bind jStr?
  let logic ← (jGet j "logic").bind jStr?
  pure { origin := origin, struct := struct, logic := logic }

/-- Decode every element of a JSON array, failing if any element fails. -/
def decodeList (dec : Json → Option α) : List Json → Option (List α)
  | [] => some []
  | j :: t => (dec j).bind (fun a => (decodeList dec t).map (fun l => a :: l))

/-- Parse a `GREWordData`; missing optional fields parse to `none`. -/
def decWord (j : Json) : Option GREWordData := do
  let word ← (jGet j "word").bind jStr?
  let phonetic ← (jGet j "phonetic").bind jStr?
  let partOfSpeech ← (jGet j "partOfSpeech").bind jStr?
  let definition ← (jGet j "definition").bind jStr?
  let greContext ← (jGet j "greContext").bind decGREContext
  let etymology ← (jGet j "etymology").bind decEtymology
  let mnemonic ← (jGet j "mnemonic").bind jStr?
  let cognates ← ((jGet j "cognates").bind jArr?).bind (decodeList decCognate)
  let synonyms ← ((jGet j "synonyms").bind jArr?).bind (decodeList decGloss)
  let antonyms ← ((jGet j "antonyms").bind jArr?).bind (decodeList decGloss)
  pure { word := word, phonetic := phonetic, partOfSpeech := partOfSpeech
         definition := definition, greContext := greContext, etymology := etymology
         mnemonic := mnemonic, cognates := cognates, synonyms := synonyms
         antonyms := antonyms
         timestamp := (jGet j "timestamp").bind jNat?
         stats := (jGet j "stats").bind decStats
         wasCorrected := (jGet j "wasCorrected").bind jBool?
         originalQuery := (jGet j "originalQuery").bind jStr? }

/-- The serialized name of a `fontSize` value. -/
def fontSizeStr : FontSize → String
  | .small => "small"
  | .medium => "medium"
  | .large => "large"

/-- Parse a `fontSize` value. -/
def decFontSize (s : String) : Option FontSize :=
  if s = "small" then some .small
  else if s = "medium" then some .medium
  else if s = "large" then some .large
  else none

/-- The serialized name of a `quizSource` value. -/
def quizSourceStr : QuizSource → String
  | .ALL => "ALL"
  | .FAVORITES => "FAVORITES"

/-- Parse a `quizSource` value. -/
def decQuizSource (s : String) : Option QuizSource :=
  if s = "ALL" then some .ALL
  else if s = "FAVORITES" then some .FAVORITES
  else none

/-- The serialized name of a `quizMode` value. -/
def quizModeStr : QuizMode → String
  | .RANDOM => "RANDOM"
  | .WEAKEST => "WEAKEST"

/-- Parse a `quizMode` value. -/
def decQuizMode (s : String) : Option QuizMode :=
  if s = "RANDOM" then some .RANDOM
  else if s = "WEAKEST" then some .WEAKEST
  else none

/-- Serialize a `Settings`. -/
def encSettings (s : Settings) : Json :=
  .obj [("darkMode", .bool s.darkMode), ("serifFont", .bool s.serifFont),
        ("fontSize", .str (fontSizeStr s.fontSize)),
        ("quizSource", .str (quizSourceStr s.quizSource)),
        ("quizMode", .str (quizModeStr s.quizMode)),
        ("quizQuestionCount", .num s.quizQuestionCount),
        ("learningGoal", .num s.learningGoal)]

/-- Parse a `Settings`. -/
def decSettings (j : Json) : Option Settings := do
  let darkMode ← (jGet j "darkMode").bind jBool?
  let serifFont ← (jGet j "serifFont").bind jBool?
  let fontSize ← ((jGet j "fontSize").bind jStr?).bind decFontSize
  let quizSource ← ((jGet j "quizSource").bind jStr?).bind decQuizSource
  let quizMode ← ((jGet j "quizMode").bind jStr?).bind decQuizMode
  let quizQuestionCount ← (jGet j "quizQuestionCount").bind jNat?
  let learningGoal ← (jGet j "learningGoal").bind jNat?
  pure { darkMode := darkMode, serifFont := serifFont, fontSize := fontSize
         quizSource := quizSource, quizMode := quizMode
         quizQuestionCount := quizQuestionCount, learningGoal := learningGoal }

/-- Serialize a `StudyStats`. -/
def encStudyStats (st : StudyStats) : Json :=
  .obj [("streakDays", .num st.streakDays), ("lastStudyDate", .str st.lastStudyDate)]

/-- Parse a `StudyStats`. -/
def decStudyStats (j : Json) : Option StudyStats := do
  let streakDays ← (jGet j "streakDays").bind jNat?
  let lastStudyDate ← (jGet j "lastStudyDate").bind jStr?
  pure { streakDays := streakDays, lastStudyDate := lastStudyDate }

/-- App.tsx `handleExportData` (lines 384-395): serialize the five-field
snapshot, in the object-literal field order of the source. -/
def handleExportData (d : UserData) : Json :=
  .obj [("favorites", .arr (d.favorites.map encWord)),
        ("history", .arr (d.history.map Json.str)),
        ("settings", encSettings d.settings),
        ("wordCache", .obj (d.wordCache.map (fun p => (p.1, encWord p.2)))),
        ("studyStats", encStudyStats d.studyStats)]

/-- Parse the favorites field. -/
def decWordList (j : Json) : Option (List GREWordData) :=
  (jArr? j).bind (decodeList decWord)

/-- Parse the history field. -/
def decHistory (j : Json) : Option (List String) :=
  (jArr? j).bind (decodeList jStr?)

/-- Decode every entry of a JSON object as a keyed word record. -/
def decodeEntries : List (String × Json) → Option (List (String × GREWordData))
  | [] => some []
  | p :: t =>
      (decWord p.2).bind (fun w => (decodeEntries t).map (fun l => (p.1, w) :: l))

/-- Parse the word-cache field. -/
def decWordCache (j : Json) : Option (List (String × GREWordData)) :=
  match j with
  | .obj fields => decodeEntries fields
  | _ => none

/-- App.tsx `handleImportData` (lines 397-416): each of the five snapshot
fields is applied only when present in the parsed document (the source's
truthiness guards); an absent field — or one that does not decode to the
state's type in this typed model — leaves that piece of state unchanged. -/
def handleImportData (cur : UserData) (file : Json) : UserData :=
  { favorites := ((jGet file "favorites").bind decWordList).getD cur.favorites
    history := ((jGet file "history").bind decHistory).getD cur.history
    wordCache := ((jGet file "wordCache").bind decWordCache).getD cur.wordCache
    settings := ((jGet file "settings").bind decSettings).getD cur.settings
    studyStats := ((jGet file "studyStats").bind decStudyStats).getD cur.studyStats }

/-- Decoding the encoding of a list elementwise recovers the list, for any
faithful element codec. -/
theorem decodeList_map_enc {α : Type} (enc : α → Json) (dec : Json → Option α)
    (h : ∀ a, dec (enc a) = some a) (l : List α) :
    decodeList dec (l.map enc) = some l := by
  induction l with
  | nil => rfl
  | cons a t ih => simp [decodeList, h, ih]

/-- Stats round-trip. -/
theorem decStats_encStats (s : WordStats) : decStats (encStats s) = some s := by
  simp [decStats, encStats, jGet, jNat?, jInt?]

/-- Cognate round-trip. -/
theorem decCognate_encCognate (c : Cognate) : decCognate (encCognate c) = some c := rfl

/-- Gloss round-trip. -/
theorem decGloss_encGloss (g : WordGloss) : decGloss (encGloss g) = some g := rfl

/-- GREContext round-trip on the inline object produced by `encWord`. -/
theorem decGREContext_enc (g : GREContext) :
    decGREContext (.obj [("explanation", .str g.explanation),
      ("sentenceEn", .str g.sentenceEn), ("sentenceCn", .str g.sentenceCn)]) = some g := rfl

/-- Etymology round-trip on the inline object produced by `encWord`. -/
theorem decEtymology_enc (e : Etymology) :
    decEtymology (.obj [("origin", .str e.origin), ("structure", .str e.struct),
      ("logic", .str e.logic)]) = some e := rfl

/-- Reading the optional timestamp field back from `encWord`. -/
theorem jGet_encWord_timestamp (w : GREWordData) :
    jGet (encWord w) "timestamp" = w.timestamp.map (fun t => Json.num (Int.ofNat t)) := by
  obtain ⟨word, ph, pos, df, gc, et, mn, cog, syn, ant, ts, st, wc, oq⟩ := w
  cases ts <;> cases st <;> cases wc <;> cases oq <;> rfl

/-- Reading the optional stats field back from `encWord`. -/
theorem jGet_encWord_stats (w : GREWordData) :
    jGet (encWord w) "stats" = w.stats.map encStats := by
  obtain ⟨word, ph, pos, df, gc, et, mn, cog, syn, ant, ts, st, wc, oq⟩ := w
  cases ts <;> cases st <;> cases wc <;> cases oq <;> rfl

/-- Reading the optional wasCorrected field back from `encWord`. -/
theorem jGet_encWord_wasCorrected (w : GREWordData) :
    jGet (encWord w) "wasCorrected" = w.wasCorrected.map Json.bool := by
  obtain ⟨word, ph, pos, df, gc, et, mn, cog, syn, ant, ts, st, wc, oq⟩ := w
  cases ts <;> cases st <;> cases wc <;> cases oq <;> rfl

/-- Reading the optional originalQuery field back from `encWord`. -/
theorem jGet_encWord_originalQuery (w : GREWordData) :
    jGet (encWord w) "originalQuery" = w.originalQuery.map Json.str := by
  obtain ⟨word, ph, pos, df, gc, et, mn, cog, syn, ant, ts, st, wc, oq⟩ := w
  cases ts <;> cases st <;> cases wc <;> cases oq <;> rfl

/-- Round-trip of an optional Nat through the number encoding. -/
theorem bind_map_num_nat (o : Option Nat) :
    (o.map (fun t : Nat => Json.num (Nat.cast t))).bind jNat? = o := by
  cases o <;> rfl

/-- Reading a string value back. -/
theorem jStr?_str (s : String) : jStr? (.str s) = some s := rfl

/-- Reading an array value back. -/
theorem jArr?_arr (l : List Json) : jArr? (.arr l) = some l := rfl

/-- Round-trip of an optional stats record. -/
theorem bind_map_stats (o : Option WordStats) :
    (o.map encStats).bind decStats = o := by
  cases o <;> simp [decStats_encStats]

/-- Round-trip of an optional boolean. -/
theorem bind_map_bool (o : Option Bool) : (o.map Json.bool).bind jBool? = o := by
  cases o <;> rfl

/-- Round-trip of an optional string. -/
theorem bind_map_str (o : Option String) : (o.map Json.str).bind jStr? = o := by
  cases o <;> rfl

/-- Word round-trip, covering every presence combination of the four
optional fields. -/
theorem decWord_encWord (w : GREWordData) : decWord (encWord w) = some w := by
  have hts := jGet_encWord_timestamp w
  have hst := jGet_encWord_stats w
  have hwc := jGet_encWord_wasCorrected w
  have hoq := jGet_encWord_originalQuery w
  simp only [decWord]
  rw [hts, hst, hwc, hoq]
  simp [encWord, jGet, jStr?_str, jArr?_arr, decGREContext_enc, decEtymology_enc,
    bind_map_num_nat, bind_map_stats, bind_map_bool, bind_map_str,
    decodeList_map_enc encCognate decCognate decCognate_encCognate,
    decodeList_map_enc encGloss decGloss decGloss_encGloss]

/-- Settings round-trip. -/
theorem decSettings_encSettings (s : Settings) : decSettings (encSettings s) = some s := by
  obtain ⟨dm, sf, fs, qs, qm, qc, lg⟩ := s
  cases fs <;> cases qs <;> cases qm <;>
    simp [decSettings, encSettings, jGet, jStr?, jBool?, jNat?,
      fontSizeStr, decFontSize, quizSourceStr, decQuizSource, quizModeStr, decQuizMode]

/-- StudyStats round-trip. -/
theorem decStudyStats_encStudyStats (st : StudyStats) :
    decStudyStats (encStudyStats st) = some st := by
  simp [decStudyStats, encStudyStats, jGet, jStr?, jNat?]

/-- Word-cache round-trip. -/
theorem decWordCache_enc (l : List (String × GREWordData)) :
    decWordCache (.obj (l.map (fun p => (p.1, encWord p.2)))) = some l := by
  induction l with
  | nil => rfl
  | cons p t ih =>
      simp only [decWordCache, List.map_cons, decodeEntries] at ih ⊢
      simp [decWord_encWord, ih]

/-- Claim C9: exporting any snapshot to the JSON backup document and
importing that document over any current state reproduces the exported
snapshot field-for-field — export followed by import is the identity on
snapshots. -/
theorem C9_export_import_roundtrip (d cur : UserData) :
    handleImportData cur (handleExportData d) = d := by
  obtain ⟨favs, hist, st, wc, ss⟩ := d
  simp [handleImportData, handleExportData, jGet, decWordList, decHistory,
    jArr?, decWordCache_enc, decSettings_encSettings, decStudyStats_encStudyStats,
    decodeList_map_enc encWord decWord decWord_encWord,
    decodeList_map_enc Json.str jStr? (fun s => rfl)]

end GREInsight
